import Mathlib

/-!
Verification of the crawl orchestration engine of `WebToPDF-Crawler.py`
(class `WebToPDFCrawler`, `CrawlStateManager`, `RobotsHandler`) against its
natural-language specification.

The embedding models the default configuration of the script:
`support_dynamic = False` (pages are fetched with `session.get`) and
`interactive = False` (no user prompt in `fetch_links`).  External
collaborators (the HTTP session, BeautifulSoup extraction) are modelled as an
environment: a partial map from URL to the page data the collaborators would
deliver (`None` models a fetch/parse failure, which `fetch_content` turns
into empty text).  All container state (`visited`, the `asyncio.Queue`,
the JSON state file) is modelled with explicit lists and option types.
-/

namespace WebToPDF

/-- Result of `urllib.parse.urlparse` on an absolute URL: the five components
the script reads (`scheme`, `netloc`, `path`, `query`, `fragment`). -/
structure ParsedUrl where
  scheme : String
  netloc : String
  path : String
  query : String
  fragment : String
deriving DecidableEq

/-- Line 399 of `WebToPDF-Crawler.py`:
`normalized_url = parsed_url.scheme + "://" + parsed_url.netloc + parsed_url.path`.
Neither `parsed_url.query` nor `parsed_url.fragment` is appended. -/
def normalized_url (p : ParsedUrl) : String :=
  p.scheme ++ "://" ++ p.netloc ++ p.path

/-- State of `urllib.robotparser.RobotFileParser` held by `RobotsHandler`:
either a parsed policy (a predicate on URLs, abstracting the rule matching of
the external library) or the pristine empty parser (`none`), which is what
remains when `parser.read()` raised before anything was parsed. -/
structure RobotsHandler where
  policy : Option (String → Bool)

/-- `RobotsHandler._fetch_robots` (lines 91-99): `parser.read()` either
succeeds and installs a policy, or raises; the exception is caught
(`except Exception`), a warning is logged, and the parser is left empty. -/
def RobotsHandler.fetch_robots (result : Except Unit (String → Bool)) : RobotsHandler :=
  match result with
  | Except.ok p => ⟨some p⟩
  | Except.error _ => ⟨none⟩

/-- `RobotsHandler.can_fetch` (lines 101-103) delegates to
`parser.can_fetch(DEFAULT_USER_AGENT, url)`.  Modelled from the spec:
the parser is `urllib.robotparser` (external to the repository); per spec
§4.2 an empty parser — nothing fetched or parsed — answers `True` for every
URL, so a fetch failure degrades to allow-all. -/
def RobotsHandler.can_fetch (h : RobotsHandler) (url : String) : Bool :=
  match h.policy with
  | some p => p url
  | none => true

/-- JSON values as written/read by `json.dump` / `json.load` in
`CrawlStateManager` (only the constructors the state file uses). -/
inductive JValue where
  | jstr (s : String)
  | jnum (n : Nat)
  | jarr (l : List JValue)
  | jobj (l : List (String × JValue))

/-- JSON encoding of one frontier entry `(url, depth)`: `json.dump` writes a
Python tuple as a two-element array. -/
def encodeEntry (e : String × Nat) : JValue :=
  JValue.jarr [JValue.jstr e.1, JValue.jnum e.2]

/-- `CrawlStateManager.save_state` (lines 242-250): serializes
`{'visited': list(visited), 'queue': list(queue._queue)}` with `json.dump`. -/
def save_state (visited : List String) (queue : List (String × Nat)) : JValue :=
  JValue.jobj
    [("visited", JValue.jarr (visited.map JValue.jstr)),
     ("queue", JValue.jarr (queue.map encodeEntry))]

/-- Dictionary lookup `state.get(key, default)` on the parsed JSON object
(`none` models a missing key, for which the code substitutes `[]`). -/
def jGet : List (String × JValue) → String → Option JValue
  | [], _ => none
  | (k, v) :: rest, key => if k = key then some v else jGet rest key

/-- `set(state.get('visited', []))`: the elements written by `save_state` are
strings; string items are collected, matching the save format. -/
def decodeStrings : List JValue → List String
  | [] => []
  | JValue.jstr s :: rest => s :: decodeStrings rest
  | _ :: rest => decodeStrings rest

/-- `tuple(item)` for one queue item of the save format
`[url, depth]`. -/
def decodeEntry : JValue → Option (String × Nat)
  | JValue.jarr [JValue.jstr u, JValue.jnum d] => some (u, d)
  | _ => none

/-- The on-disk state file as seen by `load_state`: `none` when
`os.path.exists` is false; otherwise the outcome of `json.load`, which
either raises (`Except.error`, a corrupt or partial file) or yields a
parsed JSON value. -/
def StateFile : Type := Option (Except Unit JValue)

/-- `CrawlStateManager.load_state` (lines 252-263).  Missing file: returns
`(set(), asyncio.Queue())`, the empty state.  Existing file: `json.load` is
called with no surrounding `try`/`except`, so a parse failure propagates out
of `load_state` (modelled by `Except.error`).  A parsed object is read back
with `state.get('visited', [])` and `state.get('queue', [])`; a parsed
non-object would make `.get` raise, also propagating. -/
def load_state (file : StateFile) : Except Unit (List String × List (String × Nat)) :=
  match file with
  | none => Except.ok ([], [])
  | some (Except.error e) => Except.error e
  | some (Except.ok (JValue.jobj fields)) =>
      Except.ok
        ((match jGet fields "visited" with
          | some (JValue.jarr items) => decodeStrings items
          | _ => []),
         (match jGet fields "queue" with
          | some (JValue.jarr items) => items.filterMap decodeEntry
          | _ => []))
  | some (Except.ok _) => Except.error ()

/-- The data the external fetch+extract collaborators deliver for one URL:
the text `fetch_content` returns, the optional first image source, and the
hrefs of the page after `urljoin`/`urlparse` (the inputs to the
normalization and scope logic of `fetch_links`, lines 395-398). -/
structure Page where
  text : String
  img : Option String
  links : List ParsedUrl

/-- Immutable crawler configuration from `WebToPDFCrawler.__init__`. -/
structure Config where
  max_depth : Nat
  include_external : Bool
  base_netloc : String

/-- The external world: the robots gate built in `__init__`, and the network
(`session.get` plus extraction), with `none` for a failing fetch. -/
structure Env where
  robots : RobotsHandler
  pages : String → Option Page

/-- Mutable crawler state plus the event traces the claims are about:
`visited` and `queue` are `self.visited` / `self.queue` (FIFO: head is the
next `get`); `dispatched` records each frontier entry that passed the
visited/depth check in `crawl`; `fetched` records each page URL passed to a
fetch (`session.get` in `fetch_content` or in `fetch_links`); `img_fetched`
records image downloads; `output` records URLs that got a PDF section;
`enqueued` records every entry ever put on the queue during the run;
`stateFile` is the persisted state file (updated by `save_state` calls). -/
structure CrawlState where
  visited : List String
  queue : List (String × Nat)
  dispatched : List (String × Nat)
  fetched : List String
  img_fetched : List String
  output : List String
  enqueued : List (String × Nat)
  stateFile : Option (List String × List (String × Nat))

/-- `WebToPDFCrawler.process_url` (lines 353-380): robots check first (on
denial, return with nothing done); otherwise fetch the page (`fetch_content`
performs `session.get`; a failure there is caught and yields empty text);
return early when the text is empty; otherwise download the first image if
present, add a PDF section, and call
`save_state(self.visited, self.queue)`. -/
def process_url (env : Env) (s : CrawlState) (url : String) : CrawlState :=
  if RobotsHandler.can_fetch env.robots url = true then
    match env.pages url with
    | none => { s with fetched := s.fetched ++ [url] }
    | some page =>
        if page.text = "" then { s with fetched := s.fetched ++ [url] }
        else
          match page.img with
          | some img_url =>
              { s with fetched := s.fetched ++ [url],
                       img_fetched := s.img_fetched ++ [img_url],
                       output := s.output ++ [url],
                       stateFile := some (s.visited, s.queue) }
          | none =>
              { s with fetched := s.fetched ++ [url],
                       output := s.output ++ [url],
                       stateFile := some (s.visited, s.queue) }
  else s

/-- `is_internal` computed at lines 400-403: external links are accepted
wholesale when `include_external` is set; otherwise the authority must match
the base authority (or be empty, a relative reference). -/
def is_internal (cfg : Config) (p : ParsedUrl) : Bool :=
  cfg.include_external || p.netloc == cfg.base_netloc || p.netloc == ""

/-- The `for a_tag in soup.find_all('a', href=True)` loop of `fetch_links`
(lines 395-409): normalize each href, keep it when in scope and not yet
visited, and `queue.put((normalized_url, current_depth + 1))`.  `visited` is
not modified here, so duplicate hrefs within one page enqueue twice. -/
def enqueue_links (cfg : Config) (depth : Nat) : List ParsedUrl → CrawlState → CrawlState
  | [], s => s
  | p :: rest, s =>
      enqueue_links cfg depth rest
        (if is_internal cfg p = true ∧ normalized_url p ∉ s.visited then
          { s with queue := s.queue ++ [(normalized_url p, depth + 1)],
                   enqueued := s.enqueued ++ [(normalized_url p, depth + 1)] }
         else s)

/-- `WebToPDFCrawler.fetch_links` (lines 382-411): fetches the page again
(`session.get(url)`), parses it, and runs the enqueue loop; any exception
(including a failing fetch) is caught and logged. -/
def fetch_links (cfg : Config) (env : Env) (s : CrawlState) (url : String) (depth : Nat) :
    CrawlState :=
  match env.pages url with
  | none => { s with fetched := s.fetched ++ [url] }
  | some page => enqueue_links cfg depth page.links { s with fetched := s.fetched ++ [url] }

/-- One iteration of the `while not self.queue.empty()` loop of
`WebToPDFCrawler.crawl` (lines 428-438): pop `(current_url, depth)`; discard
when already visited or `depth > self.max_depth`; otherwise add to
`visited`, record the dispatch, run `process_url`, and when
`depth < self.max_depth` run `fetch_links` with
`current_depth = depth`. -/
def crawl_step (cfg : Config) (env : Env) (s : CrawlState) : CrawlState :=
  match s.queue with
  | [] => s
  | (url, depth) :: rest =>
      if url ∈ s.visited ∨ depth > cfg.max_depth then
        { s with queue := rest }
      else
        if depth < cfg.max_depth then
          fetch_links cfg env
            (process_url env
              { s with queue := rest, visited := url :: s.visited,
                       dispatched := s.dispatched ++ [(url, depth)] } url)
            url depth
        else
          process_url env
            { s with queue := rest, visited := url :: s.visited,
                     dispatched := s.dispatched ++ [(url, depth)] } url

/-- `WebToPDFCrawler.crawl` (lines 424-438): iterate `crawl_step` while the
queue is nonempty.  `fuel` bounds the number of loop iterations, so partial
executions (used to model interruption points) are states of this
function. -/
def crawl_loop (cfg : Config) (env : Env) : Nat → CrawlState → CrawlState
  | 0, s => s
  | Nat.succ fuel, s =>
      match s.queue with
      | [] => s
      | _ :: _ => crawl_loop cfg env fuel (crawl_step cfg env s)

/-- `WebToPDFCrawler.__init__` (lines 265-291): `self.visited, self.queue =
self.state_manager.load_state()`.  The constructor stores `start_url` but
never enqueues it — no frontier entry is created for the seed; the loaded
state alone initializes `visited` and the queue.  All traces start empty. -/
def initState (start_url : String) (visited : List String)
    (queue : List (String × Nat)) : CrawlState :=
  { visited := visited, queue := queue, dispatched := [], fetched := [],
    img_fetched := [], output := [], enqueued := [], stateFile := none }

/-- `WebToPDFCrawler.run` (lines 454-463): `interrupt = none` is the normal
path — `crawl` runs to completion, then `save_pdf` (which does not touch the
state file; no statement deletes or clears it).  `interrupt = some k` models
a `KeyboardInterrupt` after `k` loop iterations: the handler calls
`save_state(self.visited, self.queue)` on the state at that moment. -/
def run_model (cfg : Config) (env : Env) (fuel : Nat) (interrupt : Option Nat)
    (s0 : CrawlState) : CrawlState :=
  match interrupt with
  | none => crawl_loop cfg env fuel s0
  | some k =>
      { crawl_loop cfg env k s0 with
        stateFile := some ((crawl_loop cfg env k s0).visited, (crawl_loop cfg env k s0).queue) }

/-- `WebToPDFCrawler._sanitize_text` (lines 341-343):
`text.encode('latin-1', 'ignore').decode('latin-1')` keeps exactly the
characters whose code point is representable in Latin-1 (below 256) and
silently drops the rest. -/
def sanitize_text (s : List Char) : List Char :=
  s.filter (fun c => c.toNat < 256)

/-- `' '.join(...)` over the per-element results, as in line 326. -/
def join_with_space : List (List Char) → List Char
  | [] => []
  | [s] => s
  | s :: rest => s ++ ' ' :: join_with_space rest

/-- The text computed by `WebToPDFCrawler.fetch_content` (lines 319-326):
with `content_filter['text_only']` set, the text is
`soup.get_text(separator=' ', strip=True)` after dropping script/style tags
(taken as the input `soup_get_text`), with no sanitization; otherwise it is
`' '.join(self._sanitize_text(text) for text in soup.stripped_strings)`. -/
def fetch_content_text (text_only : Bool) (soup_get_text : List Char)
    (stripped_strings : List (List Char)) : List Char :=
  if text_only then soup_get_text
  else join_with_space (stripped_strings.map sanitize_text)

/-! ## State-store lemmas -/

theorem decodeStrings_encode (l : List String) :
    decodeStrings (l.map JValue.jstr) = l := by
  induction l with
  | nil => rfl
  | cons a t ih => simp [decodeStrings, ih]

theorem decodeEntry_encode (q : List (String × Nat)) :
    List.filterMap (decodeEntry ∘ encodeEntry) q = q := by
  induction q with
  | nil => rfl
  | cons e t ih => simp [Function.comp, encodeEntry, decodeEntry, ih]

theorem jGet_save_visited (v q : JValue) :
    jGet [("visited", v), ("queue", q)] "visited" = some v := rfl

theorem jGet_save_queue (v q : JValue) :
    jGet [("visited", v), ("queue", q)] "queue" = some q := rfl

/-! ## Preservation lemmas: the unit of work never touches `visited` or the
dispatch record, and only the enqueue loop touches the frontier traces. -/

theorem process_url_preserves (env : Env) (s : CrawlState) (url : String) :
    (process_url env s url).visited = s.visited ∧
    (process_url env s url).dispatched = s.dispatched ∧
    (process_url env s url).enqueued = s.enqueued := by
  unfold process_url
  split
  · split
    · exact ⟨rfl, rfl, rfl⟩
    · split
      · exact ⟨rfl, rfl, rfl⟩
      · split <;> exact ⟨rfl, rfl, rfl⟩
  · exact ⟨rfl, rfl, rfl⟩

theorem enqueue_links_preserves (cfg : Config) (depth : Nat) (links : List ParsedUrl)
    (s : CrawlState) :
    (enqueue_links cfg depth links s).visited = s.visited ∧
    (enqueue_links cfg depth links s).dispatched = s.dispatched := by
  induction links generalizing s with
  | nil => exact ⟨rfl, rfl⟩
  | cons p rest ih =>
      unfold enqueue_links
      split
      · exact ih _
      · exact ih s

theorem fetch_links_preserves (cfg : Config) (env : Env) (s : CrawlState) (url : String)
    (depth : Nat) :
    (fetch_links cfg env s url depth).visited = s.visited ∧
    (fetch_links cfg env s url depth).dispatched = s.dispatched := by
  unfold fetch_links
  split
  · exact ⟨rfl, rfl⟩
  · exact enqueue_links_preserves cfg depth _ _

theorem enqueue_links_enqueued_bound (cfg : Config) (depth : Nat) (links : List ParsedUrl)
    (s : CrawlState) (hd : depth + 1 ≤ cfg.max_depth)
    (hs : ∀ e ∈ s.enqueued, e.2 ≤ cfg.max_depth) :
    ∀ e ∈ (enqueue_links cfg depth links s).enqueued, e.2 ≤ cfg.max_depth := by
  induction links generalizing s with
  | nil => exact hs
  | cons p rest ih =>
      unfold enqueue_links
      split
      · refine ih _ ?_
        intro e he
        rcases List.mem_append.mp he with h | h
        · exact hs e h
        · rcases List.mem_singleton.mp h with rfl
          exact hd
      · exact ih s hs

theorem fetch_links_enqueued_bound (cfg : Config) (env : Env) (s : CrawlState)
    (url : String) (depth : Nat) (hd : depth + 1 ≤ cfg.max_depth)
    (hs : ∀ e ∈ s.enqueued, e.2 ≤ cfg.max_depth) :
    ∀ e ∈ (fetch_links cfg env s url depth).enqueued, e.2 ≤ cfg.max_depth := by
  unfold fetch_links
  split
  · exact hs
  · exact enqueue_links_enqueued_bound cfg depth _ _ hd hs

/-! ## The dispatch invariant for C4: dispatched URLs are pairwise distinct
and all recorded in `visited`. -/

/-- Invariant tying the dispatch trace to the visited set: no URL was
dispatched twice, and every dispatched URL is in `visited`. -/
def DispInv (s : CrawlState) : Prop :=
  (s.dispatched.map Prod.fst).Nodup ∧ ∀ u ∈ s.dispatched.map Prod.fst, u ∈ s.visited

theorem disp_inv_process_url (env : Env) (s : CrawlState) (url : String)
    (h : DispInv s) : DispInv (process_url env s url) := by
  obtain ⟨hv, hd, _⟩ := process_url_preserves env s url
  exact ⟨by rw [hd]; exact h.1, by rw [hd, hv]; exact h.2⟩

theorem disp_inv_fetch_links (cfg : Config) (env : Env) (s : CrawlState) (url : String)
    (depth : Nat) (h : DispInv s) : DispInv (fetch_links cfg env s url depth) := by
  obtain ⟨hv, hd⟩ := fetch_links_preserves cfg env s url depth
  exact ⟨by rw [hd]; exact h.1, by rw [hd, hv]; exact h.2⟩

theorem disp_inv_dispatch (s : CrawlState) (url : String) (depth : Nat)
    (rest : List (String × Nat)) (h : DispInv s) (hv : url ∉ s.visited) :
    DispInv { s with queue := rest, visited := url :: s.visited,
                     dispatched := s.dispatched ++ [(url, depth)] } := by
  obtain ⟨h1, h2⟩ := h
  constructor
  · show ((s.dispatched ++ [(url, depth)]).map Prod.fst).Nodup
    rw [List.map_append]
    refine List.Nodup.append h1 (List.nodup_singleton _) ?_
    intro a ha hb
    rcases List.mem_singleton.mp hb with rfl
    exact hv (h2 a ha)
  · show ∀ u ∈ (s.dispatched ++ [(url, depth)]).map Prod.fst, u ∈ url :: s.visited
    intro u hu
    rw [List.map_append] at hu
    rcases List.mem_append.mp hu with h | h
    · exact List.mem_cons_of_mem _ (h2 u h)
    · rcases List.mem_singleton.mp h with rfl
      exact List.mem_cons_self _ _

theorem crawl_step_disp_inv (cfg : Config) (env : Env) (s : CrawlState)
    (h : DispInv s) : DispInv (crawl_step cfg env s) := by
  unfold crawl_step
  split
  · exact h
  · split
    · exact ⟨h.1, h.2⟩
    · rename_i url depth rest heq hcond
      have hv : url ∉ s.visited := fun hm => hcond (Or.inl hm)
      have hd := disp_inv_dispatch s url depth rest h hv
      split
      · exact disp_inv_fetch_links cfg env _ url depth (disp_inv_process_url env _ url hd)
      · exact disp_inv_process_url env _ url hd

theorem crawl_loop_disp_inv (cfg : Config) (env : Env) (fuel : Nat) (s : CrawlState)
    (h : DispInv s) : DispInv (crawl_loop cfg env fuel s) := by
  induction fuel generalizing s with
  | zero => exact h
  | succ n ih =>
      unfold crawl_loop
      split
      · exact h
      · exact ih _ (crawl_step_disp_inv cfg env s h)

/-! ## The depth invariant for C5. -/

theorem depth_inv_process_url (cfg : Config) (env : Env) (s : CrawlState) (url : String)
    (h1 : ∀ e ∈ s.dispatched, e.2 ≤ cfg.max_depth)
    (h2 : ∀ e ∈ s.enqueued, e.2 ≤ cfg.max_depth) :
    (∀ e ∈ (process_url env s url).dispatched, e.2 ≤ cfg.max_depth) ∧
    (∀ e ∈ (process_url env s url).enqueued, e.2 ≤ cfg.max_depth) := by
  obtain ⟨_, hd, he⟩ := process_url_preserves env s url
  exact ⟨by rw [hd]; exact h1, by rw [he]; exact h2⟩

theorem depth_inv_fetch_links (cfg : Config) (env : Env) (s : CrawlState) (url : String)
    (depth : Nat) (hd1 : depth + 1 ≤ cfg.max_depth)
    (h1 : ∀ e ∈ s.dispatched, e.2 ≤ cfg.max_depth)
    (h2 : ∀ e ∈ s.enqueued, e.2 ≤ cfg.max_depth) :
    (∀ e ∈ (fetch_links cfg env s url depth).dispatched, e.2 ≤ cfg.max_depth) ∧
    (∀ e ∈ (fetch_links cfg env s url depth).enqueued, e.2 ≤ cfg.max_depth) := by
  constructor
  · rw [(fetch_links_preserves cfg env s url depth).2]
    exact h1
  · exact fetch_links_enqueued_bound cfg env s url depth hd1 h2

theorem crawl_step_depth_inv (cfg : Config) (env : Env) (s : CrawlState)
    (h1 : ∀ e ∈ s.dispatched, e.2 ≤ cfg.max_depth)
    (h2 : ∀ e ∈ s.enqueued, e.2 ≤ cfg.max_depth) :
    (∀ e ∈ (crawl_step cfg env s).dispatched, e.2 ≤ cfg.max_depth) ∧
    (∀ e ∈ (crawl_step cfg env s).enqueued, e.2 ≤ cfg.max_depth) := by
  unfold crawl_step
  split
  · exact ⟨h1, h2⟩
  · split
    · exact ⟨h1, h2⟩
    · rename_i url depth rest heq hcond
      have hdep : depth ≤ cfg.max_depth := Nat.le_of_not_lt (fun hlt => hcond (Or.inr hlt))
      have h1' : ∀ e ∈ s.dispatched ++ [(url, depth)], e.2 ≤ cfg.max_depth := by
        intro e he
        rcases List.mem_append.mp he with h | h
        · exact h1 e h
        · rcases List.mem_singleton.mp h with rfl
          exact hdep
      split
      · rename_i hlt
        obtain ⟨hp1, hp2⟩ := depth_inv_process_url cfg env
          { s with queue := rest, visited := url :: s.visited,
                   dispatched := s.dispatched ++ [(url, depth)] } url h1' h2
        exact depth_inv_fetch_links cfg env _ url depth hlt hp1 hp2
      · exact depth_inv_process_url cfg env _ url h1' h2

theorem crawl_loop_depth_inv (cfg : Config) (env : Env) (fuel : Nat) (s : CrawlState)
    (h1 : ∀ e ∈ s.dispatched, e.2 ≤ cfg.max_depth)
    (h2 : ∀ e ∈ s.enqueued, e.2 ≤ cfg.max_depth) :
    (∀ e ∈ (crawl_loop cfg env fuel s).dispatched, e.2 ≤ cfg.max_depth) ∧
    (∀ e ∈ (crawl_loop cfg env fuel s).enqueued, e.2 ≤ cfg.max_depth) := by
  induction fuel generalizing s with
  | zero => exact ⟨h1, h2⟩
  | succ n ih =>
      unfold crawl_loop
      split
      · exact ⟨h1, h2⟩
      · obtain ⟨g1, g2⟩ := crawl_step_depth_inv cfg env s h1 h2
        exact ih _ g1 g2

/-! ## Claim theorems -/

/-- C1: the claim says a fresh run (no saved state file) places the seed in
the frontier at depth 0 and dispatches it.  The code loads an empty state
and never enqueues the seed, so the crawl loop exits at once: nothing is
dispatched and nothing reaches the document, for every configuration,
environment and fuel. -/
theorem c1_fresh_run_empty_frontier :
    load_state none = Except.ok ([], []) ∧
    ∀ (cfg : Config) (env : Env) (fuel : Nat) (start_url : String),
      (crawl_loop cfg env fuel (initState start_url [] [])).dispatched = [] ∧
      (crawl_loop cfg env fuel (initState start_url [] [])).output = [] := by
  refine ⟨rfl, fun cfg env fuel start_url => ?_⟩
  cases fuel <;> exact ⟨rfl, rfl⟩

/-- Robots policy for the C2 run: deny exactly the URLs under the path
prefix `/private/` of the base authority. -/
def c2Policy (u : String) : Bool :=
  !(("http://e.com/private/".data).isPrefixOf u.data)

/-- Environment for the C2 run: the disallowed page exists, has text, and
links to `/x`. -/
def c2Env : Env :=
  ⟨⟨some c2Policy⟩,
   fun u => if u = "http://e.com/private/a"
            then some ⟨"secret", none, [⟨"http", "e.com", "/x", "", ""⟩]⟩
            else none⟩

/-- The C2 run: max depth 1, frontier containing the disallowed URL. -/
def c2Run : CrawlState :=
  crawl_loop ⟨1, false, "e.com"⟩ c2Env 3 (initState "s" [] [("http://e.com/private/a", 0)])

/-- C2: the claim says a robots-denied URL is never passed to a fetch and
gets no link discovery.  In the code, `process_url` does skip the content
fetch on denial (so no output results), but `crawl` then calls
`fetch_links` unconditionally, which fetches the denied URL and enqueues the
links discovered on it. -/
theorem c2_robots_denied_url_fetched :
    c2Policy "http://e.com/private/a" = false ∧
    "http://e.com/private/a" ∈ c2Run.fetched ∧
    ("http://e.com/x", 1) ∈ c2Run.enqueued ∧
    c2Run.output = [] := by decide

/-- C3 counterexample: two URLs that differ only in their query strings
produce the very same normalized URL, because line 399 appends only scheme,
authority and path — the claim asserts they would be distinct. -/
theorem c3_counterexample_query_ignored :
    normalized_url ⟨"http", "e.com", "/p", "x=1", ""⟩
      = normalized_url ⟨"http", "e.com", "/p", "y=2", ""⟩ ∧
    ("x=1" : String) ≠ "y=2" :=
  ⟨rfl, by decide⟩

/-- C3 amended: the dedup key is scheme + "://" + authority + path with BOTH
the query and the fragment stripped, so any two URLs agreeing on scheme,
authority and path — in particular two that differ only in their query
strings — normalize to the same NormalizedURL. -/
theorem c3_normalized_url_drops_query (p q : ParsedUrl)
    (h1 : p.scheme = q.scheme) (h2 : p.netloc = q.netloc) (h3 : p.path = q.path) :
    normalized_url p = normalized_url q := by
  unfold normalized_url
  rw [h1, h2, h3]

/-- C3 witness: the amended theorem applied at two concrete URLs differing
only in query and fragment. -/
theorem c3_normalized_url_drops_query_witness :
    normalized_url ⟨"http", "e.com", "/p", "a=1", "f1"⟩
      = normalized_url ⟨"http", "e.com", "/p", "b=2", "f2"⟩ :=
  c3_normalized_url_drops_query _ _ rfl rfl rfl

/-- C6: saving a crawl state and loading it back returns exactly the same
visited collection and the same frontier sequence in the same order. -/
theorem c6_save_load_round_trip (visited : List String) (queue : List (String × Nat)) :
    load_state (some (Except.ok (save_state visited queue))) = Except.ok (visited, queue) := by
  simp [load_state, save_state, jGet_save_visited, jGet_save_queue,
        decodeStrings_encode, decodeEntry_encode]

/-- C7: when fetching or parsing robots.txt fails, the exception is caught
and the parser is left empty, so `can_fetch` answers `true` for every URL
and the failure never aborts the crawl (the handler is still constructed). -/
theorem c7_robots_failure_allow_all (e : Unit) (url : String) :
    RobotsHandler.can_fetch (RobotsHandler.fetch_robots (Except.error e)) url = true := rfl

/-- C8 counterexample: the claim says a corrupt state file falls back to the
empty state instead of raising.  `load_state` wraps `json.load` in no
`try`/`except`, so the parse failure propagates: the result is the raised
error, not the empty state. -/
theorem c8_counterexample_corrupt_state_raises :
    load_state (some (Except.error ())) = Except.error () ∧
    load_state (some (Except.error ())) ≠ Except.ok ([], []) := by
  refine ⟨rfl, ?_⟩
  simp [load_state]

/-- C8 amended: a missing state file yields the empty state (never fatal),
but a corrupt or partial file makes `json.load` raise and the exception
propagates out of `load_state`, failing startup. -/
theorem c8_load_missing_empty_corrupt_raises :
    load_state none = Except.ok ([], []) ∧
    ∀ e : Unit, load_state (some (Except.error e)) = Except.error e :=
  ⟨rfl, fun _ => rfl⟩

/-- C9 counterexample: the claim says no saved state remains after a run
whose frontier is exhausted.  In a completed run over one page, the state
file still holds the snapshot written by the per-URL save — `run` contains
no statement clearing it. -/
theorem c9_counterexample_state_not_cleared :
    (run_model ⟨0, false, "e.com"⟩
        ⟨⟨none⟩, fun u => if u = "http://e.com/" then some ⟨"hello", none, []⟩ else none⟩
        2 none (initState "http://e.com/" [] [("http://e.com/", 0)])).stateFile
      = some (["http://e.com/"], []) := by decide

/-- C9 amended: a run interrupted externally saves the current visited set
and frontier before exiting (the `KeyboardInterrupt` handler), while a run
that completes leaves the state file exactly as the last per-URL save wrote
it — it is not cleared on successful completion. -/
theorem c9_interrupt_persists_completion_keeps_file (cfg : Config) (env : Env)
    (fuel k : Nat) (s0 : CrawlState) :
    (run_model cfg env fuel (some k) s0).stateFile
      = some ((crawl_loop cfg env k s0).visited, (crawl_loop cfg env k s0).queue) ∧
    (run_model cfg env fuel none s0).stateFile = (crawl_loop cfg env fuel s0).stateFile :=
  ⟨rfl, rfl⟩

/-- C4: no NormalizedURL is dispatched more than once in any run — the URLs
of the dispatch trace are pairwise distinct starting from any loaded state —
and a popped entry whose URL is already in `visited` is discarded without
dispatch. -/
theorem c4_no_url_dispatched_twice (cfg : Config) (env : Env) (fuel : Nat)
    (start_url : String) (visited : List String) (queue : List (String × Nat)) :
    ((crawl_loop cfg env fuel (initState start_url visited queue)).dispatched.map
        Prod.fst).Nodup ∧
    ∀ (s : CrawlState) (url : String) (depth : Nat) (rest : List (String × Nat)),
      s.queue = (url, depth) :: rest → url ∈ s.visited →
      (crawl_step cfg env s).dispatched = s.dispatched := by
  constructor
  · have hinv : DispInv (initState start_url visited queue) := by
      constructor
      · exact List.nodup_nil
      · intro u hu
        exact absurd hu (List.not_mem_nil u)
    exact (crawl_loop_disp_inv cfg env fuel _ hinv).1
  · intro s url depth rest hq hv
    unfold crawl_step
    simp only [hq]
    rw [if_pos (Or.inl hv)]

/-- C4 witness: the discard clause applied at a concrete state whose queue
head is an already-visited URL. -/
theorem c4_no_url_dispatched_twice_witness :
    (crawl_step ⟨3, false, "e.com"⟩ ⟨⟨none⟩, fun _ => none⟩
        ⟨["u"], [("u", 0)], [], [], [], [], [], none⟩).dispatched
      = (⟨["u"], [("u", 0)], [], [], [], [], [], none⟩ : CrawlState).dispatched :=
  (c4_no_url_dispatched_twice ⟨3, false, "e.com"⟩ ⟨⟨none⟩, fun _ => none⟩ 0 "s" [] []).2
    ⟨["u"], [("u", 0)], [], [], [], [], [], none⟩ "u" 0 [] rfl (by decide)

/-- C5: in a run started from the empty state with the seed at depth 0, every
dispatched frontier entry and every entry ever enqueued by link discovery
has depth at most `max_depth` — the dispatch loop discards deeper entries and
link discovery, enqueuing children at depth + 1, only runs below the
bound. -/
theorem c5_depth_bound (cfg : Config) (env : Env) (fuel : Nat)
    (start_url seed : String) :
    (∀ e ∈ (crawl_loop cfg env fuel (initState start_url [] [(seed, 0)])).dispatched,
        e.2 ≤ cfg.max_depth) ∧
    (∀ e ∈ (crawl_loop cfg env fuel (initState start_url [] [(seed, 0)])).enqueued,
        e.2 ≤ cfg.max_depth) := by
  refine crawl_loop_depth_inv cfg env fuel _ ?_ ?_ <;>
    · intro e he
      exact absurd he (List.not_mem_nil e)

/-- C5 witness: the dispatched-entry bound applied to a concrete completed
run whose single dispatched entry is the seed at depth 0. -/
theorem c5_depth_bound_witness : (0 : Nat) ≤ 0 :=
  (c5_depth_bound ⟨0, false, "e.com"⟩ ⟨⟨none⟩, fun _ => none⟩ 1 "s" "u").1 ("u", 0)
    (by decide)

/-- Characterization of membership in a space-join: a character comes from
one of the joined strings or is the separator. -/
theorem mem_join_with_space {c : Char} : ∀ {ls : List (List Char)},
    c ∈ join_with_space ls → c = ' ' ∨ ∃ s ∈ ls, c ∈ s := by
  intro ls
  induction ls with
  | nil => intro h; exact absurd h (List.not_mem_nil c)
  | cons s rest ih =>
      cases rest with
      | nil =>
          intro h
          exact Or.inr ⟨s, List.mem_singleton_self s, h⟩
      | cons r rs =>
          intro h
          rcases List.mem_append.mp h with h1 | h1
          · exact Or.inr ⟨s, List.mem_cons_self _ _, h1⟩
          · rcases List.mem_cons.mp h1 with h2 | h2
            · exact Or.inl h2
            · rcases ih h2 with h3 | ⟨t, ht, hc⟩
              · exact Or.inl h3
              · exact Or.inr ⟨t, List.mem_cons_of_mem _ ht, hc⟩

/-- C10: without text-only filtering (the default), every character of the
text `fetch_content` returns is encodable in Latin-1 (code point below 256):
unsupported characters are dropped by `_sanitize_text` rather than
propagated.  With text-only filtering the sanitization is not applied and
the extracted text passes through unchanged. -/
theorem c10_latin1_sanitization :
    (∀ (stripped : List (List Char)) (g : List Char) (c : Char),
        c ∈ fetch_content_text false g stripped → c.toNat < 256) ∧
    (∀ (g : List Char) (stripped : List (List Char)),
        fetch_content_text true g stripped = g) := by
  constructor
  · intro stripped g c hc
    have h : c ∈ join_with_space (stripped.map sanitize_text) := hc
    rcases mem_join_with_space h with h1 | ⟨s, hs, hcs⟩
    · subst h1; decide
    · rcases List.mem_map.mp hs with ⟨t, _, rfl⟩
      have hcs' : c ∈ List.filter (fun c : Char => decide (c.toNat < 256)) t := hcs
      have hp : decide (c.toNat < 256) = true := (List.mem_filter.mp hcs').2
      exact of_decide_eq_true hp
  · intro g stripped
    rfl

/-- C10 witness: the Latin-1 bound applied to a concrete extraction in which
a character above the Latin-1 range was dropped. -/
theorem c10_latin1_sanitization_witness : ('A').toNat < 256 :=
  c10_latin1_sanitization.1 [['A', Char.ofNat 300]] [] 'A' (by decide)

end WebToPDF
